import Mathlib

/-!
Verification of the rad firmware (dc2021q-rad) against its specification.

The development shallowly embeds the Rust sources of the service:
 * src/service/rad_fw/src/data.rs   (protected data: U64, Bytes, Event, Module)
 * src/service/rad_fw/src/main.rs   (State, State::log, load_checkpoint)
 * src/service/rad_fw/src/scrub.rs  (check_state)
 * src/service/rad_fw/src/control.rs (process_request)
 * src/service/rad_fw/src/vm.rs     (syscall registry, SendMessage)
 * src/service/rad_message/src/lib.rs (ControlRequest, ControlResponse, to_failure)
 * src/service/rad_proxy/src/main.rs (node-mode authentication decision)

Machine integers are modelled as Nat, reduced mod 2^64 exactly where the Rust
u64 semantics truncates.  Byte vectors are List Nat with explicit < 256 bounds
where they matter.  External crates whose exact behaviour the firmware relies
on (seahash, reed-solomon-erasure) are modelled from their published
algorithms; the claims settled below do not depend on the internal structure
of those models, only on their determinism, which holds for any concrete
definition.
-/

/-! ### Little-endian and big-endian byte encodings -/

/-- Little-endian byte encoding of the low k bytes of a natural number. -/
def toLE : Nat → Nat → List Nat
  | 0, _ => []
  | k + 1, v => v % 256 :: toLE k (v / 256)

/-- Value of a little-endian byte list. -/
def fromLE : List Nat → Nat
  | [] => 0
  | b :: bs => b + 256 * fromLE bs

/-- Big-endian byte encoding, as produced by u64::to_be_bytes. -/
def toBE (k v : Nat) : List Nat := (toLE k v).reverse

/-- Value of a big-endian byte list, as read by u64::from_be_bytes. -/
def fromBE (bs : List Nat) : Nat := fromLE bs.reverse

/-! ### GF(2^8) arithmetic, modelling the reed-solomon-erasure galois_8 field
(polynomial 0x11d).  The crate instantiates ReedSolomon::new(2, 1): two data
shards and one parity shard.  Its systematic encoding matrix is the
Vandermonde matrix for points 0, 1, 2 normalised by the inverse of its top
square, giving the parity row [3, 2]; the three single-erasure
reconstructions below are the specialisations of the runtime matrix
inversion the crate performs. -/

/-- One shift-and-reduce multiplication round over GF(2^8). -/
def gfMulGo : Nat → Nat → Nat → Nat → Nat
  | 0, _, _, acc => acc
  | n + 1, a, b, acc =>
    gfMulGo n (if a * 2 ≥ 256 then (a * 2) ^^^ 0x11d else a * 2) (b / 2)
      (if b % 2 = 1 then acc ^^^ a else acc)

/-- Multiplication in GF(2^8) with reduction polynomial 0x11d. -/
def gfMul (a b : Nat) : Nat := gfMulGo 8 a b 0

/-- Multiplicative inverse in GF(2^8), by exhaustive search. -/
def gfInv (a : Nat) : Nat :=
  (((List.range 256).filter fun x => gfMul a x = 1).headD 0)

/-- Parity byte of the ReedSolomon::new(2, 1) systematic encoder. -/
def rsParityByte (x y : Nat) : Nat := gfMul 3 x ^^^ gfMul 2 y

/-- Reconstruction of a data-shard-0 byte from shard 1 and the parity. -/
def rsRecon0Byte (y p : Nat) : Nat :=
  gfMul (gfMul 2 (gfInv 3)) y ^^^ gfMul (gfInv 3) p

/-- Reconstruction of a data-shard-1 byte from shard 0 and the parity. -/
def rsRecon1Byte (x p : Nat) : Nat :=
  gfMul (gfMul 3 (gfInv 2)) x ^^^ gfMul (gfInv 2) p

/-- Parity shard of two data shards. -/
def rsParity (xs ys : List Nat) : List Nat := List.zipWith rsParityByte xs ys

/-- ENCODER.reconstruct with shard i treated as missing: the three cases of
the repair loops in data.rs, each computed from the snapshot shards. -/
def rsRecon (i : Nat) (s0 s1 s2 : List Nat) : List Nat × List Nat × List Nat :=
  match i with
  | 0 => (List.zipWith rsRecon0Byte s1 s2, s1, s2)
  | 1 => (s0, List.zipWith rsRecon1Byte s0 s2, s2)
  | _ => (s0, s1, rsParity s0 s1)

/-! ### SeaHash model.

data.rs computes every checksum with the seahash crate: hash uses
seahash::State::hash with the compiled-in ROOT_SEED and hasher builds a
SeaHasher::with_seeds over the same seeds, fed the three shards in order.
Both are modelled as the one-shot seeded hash of the concatenated byte
stream (the streaming hasher of the crate is specified to agree with the
one-shot hash).  The claims settled in this file depend only on this
function being a fixed deterministic function of the byte stream. -/

/-- Multiplication constant of seahash. -/
def seaK : Nat := 0x6eed0e9da4d94a4f

/-- Modulus of 64-bit wrapping arithmetic. -/
def m64 : Nat := 2 ^ 64

/-- The seahash diffusion function. -/
def diffuse (x : Nat) : Nat :=
  let y := x * seaK % m64
  let z := y ^^^ ((y >>> 32) >>> (y >>> 60))
  z * seaK % m64

/-- Main 32-byte block loop of seahash::State::hash, with a structural
fuel argument (any fuel at least the number of blocks gives the loop
result). -/
def seaBlocksGo : Nat → Nat → Nat → Nat → Nat → List Nat →
    Nat × Nat × Nat × Nat × List Nat
  | 0, a, b, c, d, bs => (a, b, c, d, bs)
  | fuel + 1, a, b, c, d, bs =>
    if 32 ≤ bs.length then
      seaBlocksGo fuel (diffuse (a ^^^ fromLE (bs.take 8)))
        (diffuse (b ^^^ fromLE ((bs.drop 8).take 8)))
        (diffuse (c ^^^ fromLE ((bs.drop 16).take 8)))
        (diffuse (d ^^^ fromLE ((bs.drop 24).take 8)))
        (bs.drop 32)
    else (a, b, c, d, bs)

/-- Main 32-byte block loop of seahash::State::hash. -/
def seaBlocks (a b c d : Nat) (bs : List Nat) : Nat × Nat × Nat × Nat × List Nat :=
  seaBlocksGo bs.length a b c d bs

/-- Tail handling of seahash::State::hash: the remaining (< 32) bytes are
read little-endian in up-to-8-byte words folded into a, b, c, d in turn. -/
def seaTail (a b c d : Nat) (rem : List Nat) : Nat × Nat × Nat × Nat :=
  let n := rem.length
  if n = 0 then (a, b, c, d)
  else if n ≤ 8 then (diffuse (a ^^^ fromLE rem), b, c, d)
  else if n ≤ 16 then
    (diffuse (a ^^^ fromLE (rem.take 8)), diffuse (b ^^^ fromLE (rem.drop 8)), c, d)
  else if n ≤ 24 then
    (diffuse (a ^^^ fromLE (rem.take 8)), diffuse (b ^^^ fromLE ((rem.drop 8).take 8)),
      diffuse (c ^^^ fromLE (rem.drop 16)), d)
  else
    (diffuse (a ^^^ fromLE (rem.take 8)), diffuse (b ^^^ fromLE ((rem.drop 8).take 8)),
      diffuse (c ^^^ fromLE ((rem.drop 16).take 8)), diffuse (d ^^^ fromLE (rem.drop 24)))

/-- Seeded seahash of a byte stream. -/
def seaHash (k1 k2 k3 k4 : Nat) (bs : List Nat) : Nat :=
  let r := seaBlocks k1 k2 k3 k4 bs
  let t := seaTail r.1 r.2.1 r.2.2.1 r.2.2.2.1 r.2.2.2.2
  diffuse (t.1 ^^^ t.2.1 ^^^ t.2.2.1 ^^^ t.2.2.2 ^^^ bs.length)

/-- ROOT_SEED of data.rs. -/
def rootSeed : Nat × Nat × Nat × Nat :=
  (0x67678957519dcf38, 0xb3a247b1d038f570, 0x3a1c737b3e72f2a4, 0xd383f84a00e3300f)

/-- data.rs hash: the one-shot seeded hash of a byte slice. -/
def dataHash (bs : List Nat) : Nat :=
  seaHash rootSeed.1 rootSeed.2.1 rootSeed.2.2.1 rootSeed.2.2.2 bs

/-- Checksum of three shards: the hasher of data.rs fed the shards in
order, modelled as the hash of their concatenation. -/
def chk (s0 s1 s2 : List Nat) : Nat := dataHash (s0 ++ s1 ++ s2)

/-! ### Errors: main.rs RadError, restricted to the variants produced by the
code modelled here. -/

inductive RadErr where
  | data (msg : String)
  | protocol (msg : String)
  | repair (msg : String)
  | encode
  deriving DecidableEq

/-! ### U64: the critical u64 of data.rs.  Shards s0, s1, s2 model
data[0], data[1], data[2]. -/

structure U64 where
  s0 : List Nat
  s1 : List Nat
  s2 : List Nat
  checksum : Nat
  deriving DecidableEq

/-- First data shard written by U64::update: high four big-endian bytes. -/
def encS0 (v : Nat) : List Nat := (toBE 8 v).take 4

/-- Second data shard written by U64::update: low four big-endian bytes. -/
def encS1 (v : Nat) : List Nat := (toBE 8 v).drop 4

/-- U64::update, which overwrites every field of the datum: shards from the
big-endian bytes of the value, parity from the encoder, fresh checksum. -/
def U64.update (_d : U64) (v : Nat) : U64 :=
  ⟨encS0 v, encS1 v, rsParity (encS0 v) (encS1 v),
    chk (encS0 v) (encS1 v) (rsParity (encS0 v) (encS1 v))⟩

/-- U64::new. -/
def U64.enc (v : Nat) : U64 := U64.update ⟨[], [], [], 0⟩ v

/-- Logical value stored in the data shards (u64::from_be_bytes of their
concatenation). -/
def U64.val (d : U64) : Nat := fromBE (d.s0 ++ d.s1)

/-- Repairable::verify for U64: recompute the checksum and compare. -/
def U64.verify (d : U64) : Bool := d.checksum == chk d.s0 d.s1 d.s2

/-- Replace the shards of a datum, keeping its stored checksum. -/
def U64.withShards (d : U64) (t : List Nat × List Nat × List Nat) : U64 :=
  ⟨t.1, t.2.1, t.2.2, d.checksum⟩

/-- Repairable::repair for U64: for i = 0, 1, 2 reconstruct from the
snapshot of the shards taken before the loop with shard i treated as
missing; adopt the first reconstruction whose checksum matches.  The final
component is the datum as left in memory (the last attempted
reconstruction when every attempt fails). -/
def U64.repair (d : U64) : U64 × Bool :=
  let t0 := d.withShards (rsRecon 0 d.s0 d.s1 d.s2)
  if t0.verify then (t0, true)
  else
    let t1 := d.withShards (rsRecon 1 d.s0 d.s1 d.s2)
    if t1.verify then (t1, true)
    else
      let t2 := d.withShards (rsRecon 2 d.s0 d.s1 d.s2)
      if t2.verify then (t2, true) else (t2, false)

/-- U64::get: verify, repair when the checksum mismatches, then read the
data shards.  Returns the result together with the datum as mutated. -/
def U64.get (d : U64) : Except RadErr Nat × U64 :=
  if d.verify then (.ok d.val, d)
  else
    match d.repair with
    | (d', true) => (.ok d'.val, d')
    | (d', false) => (.error (.repair "unable to repair u64"), d')

/-- U64::increment: get then update with the wrapping u64 sum. -/
def U64.increment (d : U64) (n : Nat) : Except RadErr Unit × U64 :=
  match d.get with
  | (.ok x, d') => (.ok (), d'.update ((x + n) % 2 ^ 64))
  | (.error e, d') => (.error e, d')

/-! ### Bytes: the critical byte vector of data.rs.  The const generic N is
passed explicitly to the operations; a datum holds 2 N logical bytes in two
N-byte data shards plus one parity shard. -/

structure BytesV where
  s0 : List Nat
  s1 : List Nat
  s2 : List Nat
  checksum : Nat
  deriving DecidableEq

/-- Shard contents written by Bytes::update from a 2 N byte value. -/
def BytesV.enc (n : Nat) (xs : List Nat) : BytesV :=
  ⟨xs.take n, xs.drop n, rsParity (xs.take n) (xs.drop n),
    chk (xs.take n) (xs.drop n) (rsParity (xs.take n) (xs.drop n))⟩

/-- Bytes::update: reject a value whose length is not N * 2, otherwise
overwrite the shards, re-encode the parity and recompute the checksum. -/
def BytesV.update (n : Nat) (d : BytesV) (xs : List Nat) :
    Except RadErr Unit × BytesV :=
  if xs.length ≠ n * 2 then
    (.error (.data "invalid byte vector update size"), d)
  else (.ok (), BytesV.enc n xs)

/-- Repairable::verify for Bytes. -/
def BytesV.verify (d : BytesV) : Bool := d.checksum == chk d.s0 d.s1 d.s2

/-- Replace the shards of a byte vector, keeping its stored checksum. -/
def BytesV.withShards (d : BytesV) (t : List Nat × List Nat × List Nat) : BytesV :=
  ⟨t.1, t.2.1, t.2.2, d.checksum⟩

/-- Repairable::repair for Bytes, structured exactly as the U64 repair. -/
def BytesV.repair (d : BytesV) : BytesV × Bool :=
  let t0 := d.withShards (rsRecon 0 d.s0 d.s1 d.s2)
  if t0.verify then (t0, true)
  else
    let t1 := d.withShards (rsRecon 1 d.s0 d.s1 d.s2)
    if t1.verify then (t1, true)
    else
      let t2 := d.withShards (rsRecon 2 d.s0 d.s1 d.s2)
      if t2.verify then (t2, true) else (t2, false)

/-- Bytes::get: verify, repair on mismatch, then copy the two data shards
into the caller buffer (the buffer, which the firmware always sizes to
N * 2, is returned directly; its size check is against that caller
buffer). -/
def BytesV.get (d : BytesV) : Except RadErr (List Nat) × BytesV :=
  if d.verify then (.ok (d.s0 ++ d.s1), d)
  else
    match d.repair with
    | (d', true) => (.ok (d'.s0 ++ d'.s1), d')
    | (d', false) => (.error (.repair "unable to repair byte vector"), d')

/-! ### Event: the critical event of data.rs, a protected timestamp plus a
protected message of MAX_MESSAGE_SIZE = 256 bytes (shard size 128). -/

/-- MAX_MESSAGE_SIZE of rad_message. -/
def maxMessageSize : Nat := 256

structure Event where
  timestamp : U64
  message : BytesV
  deriving DecidableEq

/-- Event::new: zero timestamp, zero message. -/
def Event.init : Event :=
  ⟨U64.enc 0, BytesV.enc 128 (List.replicate 256 0)⟩

/-- Event::update: update the timestamp, then the message; a message of the
wrong size fails after the timestamp was already rewritten. -/
def Event.update (e : Event) (t : Nat) (msg : List Nat) :
    Except RadErr Unit × Event :=
  let ts := e.timestamp.update t
  match BytesV.update 128 e.message msg with
  | (.ok _, m') => (.ok (), ⟨ts, m'⟩)
  | (.error er, m') => (.error er, ⟨ts, m'⟩)

/-- Event::get: timestamp then message, threading the possibly repaired
data. -/
def Event.getPair (e : Event) : Except RadErr (Nat × List Nat) × Event :=
  match e.timestamp.get with
  | (.ok t, ts') =>
    match e.message.get with
    | (.ok m, m') => (.ok (t, m), ⟨ts', m'⟩)
    | (.error er, m') => (.error er, ⟨ts', m'⟩)
  | (.error er, ts') => (.error er, ⟨ts', e.message⟩)

/-- Repairable::verify for Event: both sub-data verify. -/
def Event.verify (e : Event) : Bool := e.timestamp.verify && e.message.verify

/-- Repairable::repair for Event: repair the timestamp, then the message;
the first failing sub-repair aborts with its error. -/
def Event.repairE (e : Event) : Event × Option RadErr :=
  match e.timestamp.repair with
  | (ts', true) =>
    match e.message.repair with
    | (m', true) => (⟨ts', m'⟩, none)
    | (m', false) => (⟨ts', m'⟩, some (.repair "unable to repair byte vector"))
  | (ts', false) => (⟨ts', e.message⟩, some (.repair "unable to repair u64"))

/-! ### Module: the critical module of data.rs.  The verified field is a
plain (unprotected) u64; signature and code are plain byte arrays. -/

/-- MAX_MODULE_SIZE of data.rs. -/
def maxModuleSize : Nat := 4096

/-- SIGNATURE_SIZE of data.rs. -/
def signatureSize : Nat := 64

/-- MODULE_UPDATE_THRESHOLD of data.rs. -/
def moduleUpdateThreshold : Nat := 300

structure RModule where
  updated : U64
  enabled : U64
  encoded : U64
  verified : Nat
  signature : List Nat
  code : List Nat
  deriving DecidableEq

/-- Module::new. -/
def RModule.init : RModule :=
  ⟨U64.enc 0, U64.enc 0, U64.enc 0, 0,
    List.replicate signatureSize 0, List.replicate maxModuleSize 0⟩

/-- Module::can_update. -/
def RModule.canUpdate (m : RModule) (now : Nat) : Except RadErr Bool × RModule :=
  match m.updated.get with
  | (.ok ts, u') =>
    (.ok (decide (now > ts) && decide (now - ts ≥ moduleUpdateThreshold)),
      { m with updated := u' })
  | (.error e, u') => (.error e, { m with updated := u' })

/-- Module::update: size checks, then store the timestamp and signature and
the zero-padded code; returns the seeded hash of the stored code. -/
def RModule.updateCode (m : RModule) (now : Nat) (data signature : List Nat) :
    Except RadErr Nat × RModule :=
  if data.length > maxModuleSize then
    (.error (.protocol "module exceeds maximum size"), m)
  else if signature.length ≠ signatureSize then
    (.error (.protocol "invalid module signature"), m)
  else
    let code := data ++ List.replicate (maxModuleSize - data.length) 0
    (.ok (dataHash code),
      { m with updated := m.updated.update now, signature := signature, code := code })

/-- Module::is_verified: the plain field compared with zero. -/
def RModule.isVerified (m : RModule) : Bool := m.verified != 0

/-- Module::is_encoded. -/
def RModule.isEncoded (m : RModule) : Except RadErr Bool × RModule :=
  match m.encoded.get with
  | (.ok x, e') => (.ok (x != 0), { m with encoded := e' })
  | (.error e, e') => (.error e, { m with encoded := e' })

/-- Module::set_encoded. -/
def RModule.setEncoded (m : RModule) (b : Bool) : RModule :=
  { m with encoded := m.encoded.update (if b then 1 else 0) }

/-- Module::is_enabled. -/
def RModule.isEnabled (m : RModule) : Except RadErr Bool × RModule :=
  match m.enabled.get with
  | (.ok x, e') => (.ok (x != 0), { m with enabled := e' })
  | (.error e, e') => (.error e, { m with enabled := e' })

/-- Module::set_enabled. -/
def RModule.setEnabled (m : RModule) (b : Bool) : RModule :=
  { m with enabled := m.enabled.update (if b then 1 else 0) }

/-- Module::verify_code, parameterized by the Ed25519 verification
RAD_PUB_KEY.verify of the ring crate (a fixed boolean function of code and
signature): recompute and store the plain verified flag.  The structure is
named RModule because Mathlib reserves the name Module. -/
def RModule.verifyCode (ev : List Nat → List Nat → Bool) (m : RModule) :
    Bool × RModule :=
  let b := ev m.code m.signature
  (b, { m with verified := if b then 1 else 0 })

/-- Repairable::verify for Module: updated, enabled and encoded all verify
(the plain fields carry no checksum). -/
def RModule.verify (m : RModule) : Bool :=
  m.updated.verify && m.enabled.verify && m.encoded.verify

/-- Repairable::repair for Module: the source inspects updated.verify
(discarding the boolean) and then repairs only enabled and encoded; the
updated field is never repaired. -/
def RModule.repairE (m : RModule) : RModule × Option RadErr :=
  match m.enabled.repair with
  | (en', true) =>
    match m.encoded.repair with
    | (ec', true) => ({ m with enabled := en', encoded := ec' }, none)
    | (ec', false) =>
      ({ m with enabled := en', encoded := ec' }, some (.repair "unable to repair u64"))
  | (en', false) => ({ m with enabled := en' }, some (.repair "unable to repair u64"))

/-! ### State: the protected state of main.rs. -/

structure State where
  repairs : U64
  restarts : U64
  event_index : U64
  events : List Event
  modules : List RModule
  deriving DecidableEq

/-- State::new: 32 blank events, 4 blank modules, zero counters. -/
def State.init : State :=
  ⟨U64.enc 0, U64.enc 0, U64.enc 0,
    List.replicate 32 Event.init, List.replicate 4 RModule.init⟩

/-- State::log.  The message argument is the UTF-8 byte stream of the Rust
string.  The index is read from event_index (repairing it in place when its
checksum mismatches, defaulting to 0 when the read fails), reset to 0 only
when strictly greater than the events length, and left untouched otherwise;
an index equal to the length makes events.get_mut return None and the entry
is silently dropped.  The message is truncated to MAX_MESSAGE_SIZE bytes
before Event::update. -/
def State.log (s : State) (now : Nat) (msg : List Nat) : State :=
  let r := s.event_index.get
  let index := match r.1 with
    | .ok v => v
    | .error _ => 0
  let index := if index > s.events.length then 0 else index
  match s.events[index]? with
  | none => { s with event_index := r.2 }
  | some e =>
    let size := if msg.length > maxMessageSize then maxMessageSize else msg.length
    let e' := (e.update now (msg.take size)).2
    { s with event_index := r.2, events := s.events.set index e' }

/-! ### Memory scrubbing: check_state of scrub.rs. -/

/-- One check! expansion on a U64 datum: verify, then repair, counting 1
for a successful repair and propagating the repair error. -/
def scrubU64 (d : U64) : Except RadErr (U64 × Nat) :=
  if d.verify then .ok (d, 0)
  else
    match d.repair with
    | (d', true) => .ok (d', 1)
    | (_, false) => .error (.repair "unable to repair u64")

/-- One check! expansion on an Event. -/
def scrubEvent (e : Event) : Except RadErr (Event × Nat) :=
  if e.verify then .ok (e, 0)
  else
    match e.repairE with
    | (e', none) => .ok (e', 1)
    | (_, some er) => .error er

/-- One check! expansion on a Module. -/
def scrubModule (m : RModule) : Except RadErr (RModule × Nat) :=
  if m.verify then .ok (m, 0)
  else
    match m.repairE with
    | (m', none) => .ok (m' , 1)
    | (_, some er) => .error er

/-- Scrub a list of data in order, accumulating the repair count. -/
def scrubList {α : Type} (f : α → Except RadErr (α × Nat)) :
    List α → Except RadErr (List α × Nat)
  | [] => .ok ([], 0)
  | x :: xs => do
    let (x', c) ← f x
    let (xs', cs) ← scrubList f xs
    .ok (x' :: xs', c + cs)

/-- check_state of scrub.rs: scrub every protected datum of the state in
declaration order, then add the number of repairs to the repairs counter. -/
def checkState (s : State) : Except RadErr State := do
  let (rep, c0) ← scrubU64 s.repairs
  let (res, c1) ← scrubU64 s.restarts
  let (ei, c2) ← scrubU64 s.event_index
  let (evs, c3) ← scrubList scrubEvent s.events
  let (mods, c4) ← scrubList scrubModule s.modules
  match rep.increment (c0 + c1 + c2 + c3 + c4) with
  | (.ok _, rep') =>
    .ok { repairs := rep', restarts := res, event_index := ei, events := evs,
          modules := mods }
  | (.error e, _) => .error e

/-! ### rad_message: wire types.  Floating-point payloads carry no
arithmetic anywhere in the modelled code; an f64 is modelled by its IEEE-754
bit pattern, with 0.0 as bit pattern 0. -/

/-- IEEE-754 double, as its raw bit pattern. -/
abbrev F64 := Nat

structure Burn where
  start : Nat
  length : Nat
  thrust : F64
  vector : F64 × F64 × F64
  deriving DecidableEq

inductive ControlRequest where
  | NoOp
  | Authenticate (token nonce : List Nat)
  | Reset
  | Firmware
  | PositionVelocity
  | KeplerianElements
  | Sensors
  | EnableModule (id : Nat) (enable : Bool)
  | UpdateModule (id : Nat) (module signature : List Nat) (encoded : Bool)
  | Maneuver (burns : List Burn)
  | Disconnect
  deriving DecidableEq

structure MsgEvent where
  timestamp : Nat
  message : List Nat
  deriving DecidableEq

structure ModuleStatus where
  enabled : Bool
  verified : Bool
  checksum : Nat
  deriving DecidableEq

inductive ControlResponse where
  | NoOp
  | Authenticate (authenticated connected : Bool)
  | Reset (success : Bool)
  | Firmware (success : Bool) (repairs restarts : Nat) (events : List MsgEvent)
      (modules : List ModuleStatus)
  | PositionVelocity (success : Bool) (t : Nat) (p v : F64 × F64 × F64)
  | KeplerianElements (success : Bool) (dt : Nat) (sma ecc inc raan aop ta : F64)
  | Sensors (success : Bool) (fuel radiation : F64)
  | EnableModule (success : Bool)
  | UpdateModule (success : Bool) (checksum : Nat) (verified enabled : Bool)
  | Maneuver (success : Bool)
  | Custom (data : List Nat)
  | Disconnect
  deriving DecidableEq

/-- ControlRequest::to_failure, translated arm by arm from
rad_message/src/lib.rs lines 41 to 83.  Note that the UpdateModule arm of
the source returns ControlResponse::EnableModule with success false. -/
def ControlRequest.toFailure : ControlRequest → ControlResponse
  | .NoOp => .NoOp
  | .Authenticate _ _ => .Authenticate false false
  | .Reset => .Reset false
  | .Firmware => .Firmware false 0 0 [] []
  | .PositionVelocity => .PositionVelocity false 0 (0, 0, 0) (0, 0, 0)
  | .KeplerianElements => .KeplerianElements false 0 0 0 0 0 0 0
  | .Sensors => .Sensors false 0 0
  | .EnableModule _ _ => .EnableModule false
  | .UpdateModule _ _ _ _ => .EnableModule false
  | .Maneuver _ => .Maneuver false
  | .Disconnect => .Disconnect

inductive ExecutiveRequest where
  | Checkpoint (state : List Nat)
  | PositionVelocity
  | KeplerianElements
  | Sensors
  | Maneuver (burns : List Burn)
  deriving DecidableEq

/-! ### Formatted log messages.  State::log receives Rust format! strings;
they are modelled as the UTF-8 bytes of a Lean string assembled with the
same literal pieces.  Numeric parts use decimal Nat formatting; the burn
messages of the Maneuver arm interpolate f64 values, whose Rust Display
output is not modelled, so there the model prints the bit pattern.  No
claim depends on the byte contents of a logged message. -/

/-- UTF-8 bytes of a string. -/
def strBytes (s : String) : List Nat := s.toUTF8.toList.map (fun b => b.toNat)

/-- Lower-case hex digit. -/
def hexDigit (n : Nat) : Char :=
  if n < 10 then Char.ofNat (48 + n) else Char.ofNat (87 + n)

/-- hex::encode of a byte list. -/
def hexStr (bs : List Nat) : String :=
  String.mk (bs.map (fun b => [hexDigit (b / 16 % 16), hexDigit (b % 16)])).flatten

/-- Display text of the RadError variants produced here (thiserror
derive). -/
def errText : RadErr → String
  | .data msg => "critical data error: " ++ msg
  | .protocol msg => "control protocol error: " ++ msg
  | .repair msg => "repair error: " ++ msg
  | .encode => "encoding error"

/-- Log line of one scheduled burn. -/
def burnMsg (b : Burn) : String :=
  "schedule maneuver: start=" ++ toString b.start ++ " length=" ++
    toString b.length ++ "s thrust=" ++ toString b.thrust ++ "N vector=(" ++
    toString b.vector.1 ++ ", " ++ toString b.vector.2.1 ++ ", " ++
    toString b.vector.2.2 ++ ")"

/-! ### process_request of control.rs. -/

/-- Firmware-status event collection: Event::get on every event in order
into fresh MAX_MESSAGE_SIZE buffers, threading the possibly repaired
events; the first error aborts the request (and the firmware process). -/
def collectEvents : List Event → Except RadErr (List MsgEvent) × List Event
  | [] => (.ok [], [])
  | e :: es =>
    match e.getPair with
    | (.ok tm, e') =>
      match collectEvents es with
      | (.ok vs, es') => (.ok (⟨tm.1, tm.2⟩ :: vs), e' :: es')
      | (.error er, es') => (.error er, e' :: es')
    | (.error er, e') => (.error er, e' :: es)

/-- Firmware-status module collection: is_enabled, is_verified and the
seeded hash of the code, for each module in order. -/
def collectStatuses : List RModule → Except RadErr (List ModuleStatus) × List RModule
  | [] => (.ok [], [])
  | m :: ms =>
    match m.isEnabled with
    | (.ok en, m1) =>
      match collectStatuses ms with
      | (.ok vs, ms') =>
        (.ok (⟨en, m1.isVerified, dataHash m1.code⟩ :: vs), m1 :: ms')
      | (.error er, ms') => (.error er, m1 :: ms')
    | (.error er, m1) => (.error er, m1 :: ms)

/-- process_request of control.rs, parameterized by the Ed25519 signature
check (ev) and the current UNIX timestamp (now).  The result is
some (response option, new state, executive requests sent) for the arms of
the source match, where response none means the reply will arrive later
from the executive; an error models the question-mark propagation that
kills the firmware (the mutated state is then abandoned with the process).
The source match has no arm for ControlRequest::Authenticate, which makes
it non-exhaustive: that case is modelled as none. -/
def processRequest (ev : List Nat → List Nat → Bool) (now : Nat)
    (req : ControlRequest) (s : State) :
    Option (Except RadErr (Option ControlResponse × State × List ExecutiveRequest)) :=
  match req with
  | .Firmware =>
    match collectEvents s.events with
    | (.error er, _) => some (.error er)
    | (.ok evs, evs') =>
      match collectStatuses s.modules with
      | (.error er, _) => some (.error er)
      | (.ok stats, mods') =>
        let s1 := { s with events := evs', modules := mods' }
        match s1.repairs.get with
        | (.error er, _) => some (.error er)
        | (.ok rep, repD) =>
          match s1.restarts.get with
          | (.error er, _) => some (.error er)
          | (.ok res, resD) =>
            some (.ok (some (.Firmware true rep res evs stats),
              { s1 with repairs := repD, restarts := resD }, []))
  | .PositionVelocity => some (.ok (none, s, [.PositionVelocity]))
  | .KeplerianElements => some (.ok (none, s, [.KeplerianElements]))
  | .Sensors => some (.ok (none, s, [.Sensors]))
  | .EnableModule id enable =>
    match s.modules[id]? with
    | some m =>
      let s1 := { s with modules := s.modules.set id (m.setEnabled enable) }
      let s2 := s1.log now (strBytes ("enable module " ++ toString id ++ ": success"))
      some (.ok (some (.EnableModule true), s2, []))
    | none =>
      let s2 := s.log now (strBytes ("enable module " ++ toString id ++ ": failure"))
      some (.ok (some (.EnableModule false), s2, []))
  | .UpdateModule id module signature encoded =>
    match s.modules[id]? with
    | some m =>
      match m.canUpdate now with
      | (.error er, _) => some (.error er)
      | (.ok canU, m1) =>
        if canU then
          let m2 := m1.setEnabled false
          match m2.updateCode now module signature with
          | (.error er, _) => some (.error er)
          | (.ok checksum, m3) =>
            let vm4 := m3.verifyCode ev
            let m5 := (vm4.2.setEnabled true).setEncoded encoded
            let s1 := { s with modules := s.modules.set id m5 }
            let s2 := s1.log now (strBytes ("update module " ++ toString id ++ ": success"))
            some (.ok (some (.UpdateModule vm4.1 checksum vm4.1 true), s2, []))
        else
          let s1 := { s with modules := s.modules.set id m1 }
          let s2 := s1.log now (strBytes ("update module " ++ toString id ++ ": failure"))
          some (.ok (some req.toFailure, s2, []))
    | none =>
      let s2 := s.log now (strBytes ("update module " ++ toString id ++ ": failure"))
      some (.ok (some req.toFailure, s2, []))
  | .Maneuver burns =>
    let s' := burns.foldl (fun st b => st.log now (strBytes (burnMsg b))) s
    some (.ok (none, s', [.Maneuver burns]))
  | .NoOp => some (.error (.protocol "invalid control protocol message"))
  | .Reset => some (.error (.protocol "invalid control protocol message"))
  | .Disconnect => some (.error (.protocol "invalid control protocol message"))
  | .Authenticate _ _ => none

/-! ### Sandbox VM surface of vm.rs. -/

inductive SyscallId where
  | fileRead
  | sendMessage
  deriving DecidableEq

/-- The syscall registry built by execute of vm.rs before running a
program: a single register_syscall_by_hash call installs FileRead at
integer hash 23, and the bound syscall context object is a FileRead.  The
SendMessage syscall defined in the same file is never registered. -/
def vmSyscallRegistry : List (Nat × SyscallId) := [(23, .fileRead)]

/-- SendMessage::call of vm.rs: with len < 64 enforced, copy len guest
bytes at src into the buffer attached to the VM instance and return len; a
failing guest-memory mapping aborts the syscall; len ≥ 64 returns 0 and
copies nothing. -/
def sendMessageCall (mem buf : List Nat) (loadAddr loadSize : Nat) :
    Except Unit Nat × List Nat :=
  if loadSize < 64 then
    if loadAddr + loadSize ≤ mem.length then
      (.ok loadSize, buf ++ (mem.drop loadAddr).take loadSize)
    else (.error (), buf)
  else (.ok 0, buf)

/-- Interface of vm::execute_bytes for the module runner: the program
bytes, the decode flag and the zeroed 1024-byte memory give a result value
and the memory contents after the run. -/
def VmFn : Type := List Nat → Bool → List Nat → Except RadErr (Nat × List Nat)

/-- Module::execute: run the VM only when the plain verified flag is
nonzero and the protected enabled flag reads nonzero; otherwise return an
empty vector.  The final component records whether the VM ran (and hence
whether any syscall could have been invoked). -/
def RModule.execute (vm : VmFn) (m : RModule) :
    Except RadErr (List Nat) × RModule × Bool :=
  if m.isVerified then
    match m.isEnabled with
    | (.error e, m1) => (.error e, m1, false)
    | (.ok en, m1) =>
      if en then
        match m1.isEncoded with
        | (.error e, m2) => (.error e, m2, false)
        | (.ok dec, m2) =>
          match vm m2.code dec (List.replicate 1024 0) with
          | .error e => (.error e, m2, true)
          | .ok r => (.ok (r.2.take r.1), m2, true)
      else (.ok [], m1, false)
  else (.ok [], m, false)

/-- Module pass of the firmware main loop: execute the modules in index
order, disabling a module whose execution errored; collect the non-empty
results and the error texts. -/
def runModulesGo (vm : VmFn) :
    Nat → List RModule → List RModule × List (Nat × List Nat) × List (Nat × RadErr)
  | _, [] => ([], [], [])
  | i, m :: ms =>
    let r := RModule.execute vm m
    let rest := runModulesGo vm (i + 1) ms
    match r.1 with
    | .ok data =>
      if data.isEmpty then (r.2.1 :: rest.1, rest.2.1, rest.2.2)
      else (r.2.1 :: rest.1, (i, data) :: rest.2.1, rest.2.2)
    | .error e => ((r.2.1.setEnabled false) :: rest.1, rest.2.1, (i, e) :: rest.2.2)

/-- The complete per-tick module step of the main loop: run the modules,
then log the results as hex, then log the error lines. -/
def mainModulePass (vm : VmFn) (now : Nat) (s : State) : State :=
  let r := runModulesGo vm 0 s.modules
  let s1 := { s with modules := r.1 }
  let s2 := r.2.1.foldl (fun st p =>
    st.log now (strBytes ("module " ++ toString p.1 ++ " result: " ++ hexStr p.2))) s1
  r.2.2.foldl (fun st p =>
    st.log now (strBytes ("module " ++ toString p.1 ++ " exec error: " ++ errText p.2))) s2

/-! ### Checkpoint serialization.

bincode::serialize with the legacy crate-level configuration: little-endian,
fixed-width integers (u64 and usize as 8 bytes, u8 as 1 byte), Vec with a
u64 length prefix, fixed-size arrays element by element without a prefix.
U64, Event, Module and State use derived Serialize in field order; Bytes
uses the hand-written impl of array.rs (fields n, data as one Vec of the
three concatenated shards, checksum). -/

/-- Serialized U64: the 3 x 4 shard bytes then the checksum. -/
def serU64 (d : U64) : List Nat :=
  d.s0 ++ d.s1 ++ d.s2 ++ toLE 8 d.checksum

/-- Serialized Bytes: the shard size n, the concatenated shards as a
length-prefixed Vec, then the checksum. -/
def serBytesV (n : Nat) (d : BytesV) : List Nat :=
  toLE 8 n ++ toLE 8 (d.s0.length + d.s1.length + d.s2.length) ++
    d.s0 ++ d.s1 ++ d.s2 ++ toLE 8 d.checksum

/-- Serialized Event. -/
def serEvent (e : Event) : List Nat :=
  serU64 e.timestamp ++ serBytesV 128 e.message

/-- Serialized Module. -/
def serModule (m : RModule) : List Nat :=
  serU64 m.updated ++ serU64 m.enabled ++ serU64 m.encoded ++
    toLE 8 m.verified ++ m.signature ++ m.code

/-- Serialized State. -/
def serState (s : State) : List Nat :=
  serU64 s.repairs ++ serU64 s.restarts ++ serU64 s.event_index ++
    (s.events.map serEvent).flatten ++ (s.modules.map serModule).flatten

/-- Read n bytes. -/
def pTake (n : Nat) (bs : List Nat) : Option (List Nat × List Nat) :=
  if n ≤ bs.length then some (bs.take n, bs.drop n) else none

/-- Read a little-endian u64. -/
def pW64 (bs : List Nat) : Option (Nat × List Nat) :=
  (pTake 8 bs).map (fun p => (fromLE p.1, p.2))

/-- Parse a U64 datum. -/
def pU64 (bs : List Nat) : Option (U64 × List Nat) := do
  let (a, r1) ← pTake 4 bs
  let (b, r2) ← pTake 4 r1
  let (c, r3) ← pTake 4 r2
  let (k, r4) ← pW64 r3
  some (⟨a, b, c, k⟩, r4)

/-- Parse a Bytes datum with expected shard size m: the visitor of
array.rs reads n and the data Vec, rejects data whose length is not 3 n,
and splits it at m, m and 2 m (the copy_from_slice calls force n = m). -/
def pBytesV (m : Nat) (bs : List Nat) : Option (BytesV × List Nat) := do
  let (n, r1) ← pW64 bs
  let (len, r2) ← pW64 r1
  let (data, r3) ← pTake len r2
  let (k, r4) ← pW64 r3
  if len = 3 * n ∧ n = m then
    some (⟨data.take m, (data.drop m).take m, data.drop (2 * m), k⟩, r4)
  else none

/-- Parse a fixed-count sequence. -/
def pList {α : Type} (p : List Nat → Option (α × List Nat)) :
    Nat → List Nat → Option (List α × List Nat)
  | 0, bs => some ([], bs)
  | k + 1, bs => do
    let (x, r) ← p bs
    let (xs, r') ← pList p k r
    some (x :: xs, r')

/-- Parse an Event. -/
def pEvent (bs : List Nat) : Option (Event × List Nat) := do
  let (ts, r1) ← pU64 bs
  let (msg, r2) ← pBytesV 128 r1
  some (⟨ts, msg⟩, r2)

/-- Parse a Module. -/
def pModule (bs : List Nat) : Option (RModule × List Nat) := do
  let (u, r1) ← pU64 bs
  let (en, r2) ← pU64 r1
  let (ec, r3) ← pU64 r2
  let (v, r4) ← pW64 r3
  let (sig, r5) ← pTake signatureSize r4
  let (code, r6) ← pTake maxModuleSize r5
  some (⟨u, en, ec, v, sig, code⟩, r6)

/-- Parse a State. -/
def pState (bs : List Nat) : Option (State × List Nat) := do
  let (rep, r1) ← pU64 bs
  let (res, r2) ← pU64 r1
  let (ei, r3) ← pU64 r2
  let (evs, r4) ← pList pEvent 32 r3
  let (mods, r5) ← pList pModule 4 r4
  some (⟨rep, res, ei, evs, mods⟩, r5)

/-- load_checkpoint of main.rs: deserialize the state (trailing bytes are
ignored by deserialize_from), increment restarts, then re-verify the code
of every module and disable it. -/
def loadCheckpoint (ev : List Nat → List Nat → Bool) (bs : List Nat) :
    Except RadErr State :=
  match pState bs with
  | none => .error .encode
  | some (s, _) =>
    match s.restarts.increment 1 with
    | (.error e, _) => .error e
    | (.ok _, rst) =>
      .ok { s with
        restarts := rst,
        modules := s.modules.map (fun m => ((m.verifyCode ev).2).setEnabled false) }

/-- Structural well-formedness used by the round trips. -/
def WfU64 (d : U64) : Prop :=
  d.s0.length = 4 ∧ d.s1.length = 4 ∧ d.s2.length = 4 ∧ d.checksum < 2 ^ 64

def WfBytesV (n : Nat) (d : BytesV) : Prop :=
  d.s0.length = n ∧ d.s1.length = n ∧ d.s2.length = n ∧ d.checksum < 2 ^ 64

def WfEvent (e : Event) : Prop := WfU64 e.timestamp ∧ WfBytesV 128 e.message

def WfModule (m : RModule) : Prop :=
  WfU64 m.updated ∧ WfU64 m.enabled ∧ WfU64 m.encoded ∧ m.verified < 2 ^ 64 ∧
    m.signature.length = signatureSize ∧ m.code.length = maxModuleSize

def WfState (s : State) : Prop :=
  WfU64 s.repairs ∧ WfU64 s.restarts ∧ WfU64 s.event_index ∧
    s.events.length = 32 ∧ (∀ e ∈ s.events, WfEvent e) ∧
    s.modules.length = 4 ∧ (∀ m ∈ s.modules, WfModule m)

/-! ### Canonical data: every protected datum the firmware ever writes is
produced by an update, so its shards and checksum are exactly the encoding
of some value. -/

/-- The datum is the encoding of some u64 value. -/
def CanonU64 (d : U64) : Prop := ∃ v, v < 2 ^ 64 ∧ d = U64.enc v

/-- The datum is the encoding of some 2 n byte value. -/
def CanonBytesV (n : Nat) (d : BytesV) : Prop :=
  ∃ xs, xs.length = 2 * n ∧ d = BytesV.enc n xs

/-! ### The state invariant: all protected data canonical, the plain
verified field coherent with the Ed25519 recomputation, sizes fixed. -/

/-- Code and signature of a blank module. -/
def zeroCode : List Nat := List.replicate maxModuleSize 0

def zeroSig : List Nat := List.replicate signatureSize 0

def InvEvent (e : Event) : Prop :=
  CanonU64 e.timestamp ∧ CanonBytesV 128 e.message

def InvModule (ev : List Nat → List Nat → Bool) (m : RModule) : Prop :=
  CanonU64 m.updated ∧ CanonU64 m.enabled ∧ CanonU64 m.encoded ∧
    m.verified = (if ev m.code m.signature then 1 else 0) ∧
    m.signature.length = signatureSize ∧ m.code.length = maxModuleSize

def InvState (ev : List Nat → List Nat → Bool) (s : State) : Prop :=
  CanonU64 s.repairs ∧ CanonU64 s.restarts ∧ CanonU64 s.event_index ∧
    s.events.length = 32 ∧ (∀ e ∈ s.events, InvEvent e) ∧
    s.modules.length = 4 ∧ (∀ m ∈ s.modules, InvModule ev m)

/-! ### Reachable states: those produced by the firmware operations, from
the blank state of a fresh boot through checkpoint reloads, control
requests, event logging, the per-tick module pass and the scrubber. -/

inductive Reachable (ev : List Nat → List Nat → Bool) : State → Prop where
  | init : Reachable ev State.init
  | load {s s' : State} : Reachable ev s →
      loadCheckpoint ev (serState s) = .ok s' → Reachable ev s'
  | ctrl {s : State} {now : Nat} {req : ControlRequest}
      {r : Option ControlResponse × State × List ExecutiveRequest} :
      Reachable ev s → processRequest ev now req s = some (.ok r) →
      Reachable ev r.2.1
  | log {s : State} {now : Nat} {msg : List Nat} : Reachable ev s →
      Reachable ev (s.log now msg)
  | modulePass {s : State} (vm : VmFn) (now : Nat) : Reachable ev s →
      Reachable ev (mainModulePass vm now s)
  | scrub {s s' : State} : Reachable ev s → checkState s = .ok s' →
      Reachable ev s'

/-! ### Node-mode authentication of rad_proxy. -/

/-- Modelled from the spec: TEST_TOKEN, the compiled-in test token constant
imported from rad_message, whose definition is not under src (only its
uses are).  Its concrete value is immaterial to every property proved
here, which depends only on equality or inequality with it. -/
def TEST_TOKEN : String := "TEST_TOKEN"

inductive NodeAuthOutcome where
  /-- A response was written to the client and the handler returned. -/
  | respond (resp : ControlResponse)
  /-- Authentication passed; continue to the service connection phase with
  this team id. -/
  | proceed (teamId : Nat)
  /-- A question-mark error dropped the connection without a response. -/
  | connFail
  deriving DecidableEq

/-- Authentication phase of process_client in node mode (rad_proxy
main.rs), parameterized over its effects: decryptTok models decrypt_token
(ChaCha20-Poly1305 unseal plus UTF-8 check), decodeTok models decode_token
(JWT decode without signature check), authTeam models the external HTTP
check authenticate_team.  The boolean of the result records whether
authenticate_team was consulted.  The source consults it only inside the
branch testing the decrypted token against TEST_TOKEN. -/
def processClientAuth (decryptTok : List Nat → List Nat → Except String String)
    (decodeTok : String → Except String Nat)
    (authTeam : String → Except String Bool)
    (req : ControlRequest) : NodeAuthOutcome × Bool :=
  match req with
  | .Authenticate token nonce =>
    match decryptTok token nonce with
    | .error _ => (.connFail, false)
    | .ok tok =>
      match decodeTok tok with
      | .error _ => (.connFail, false)
      | .ok teamId =>
        if tok ≠ TEST_TOKEN then
          match authTeam tok with
          | .error _ => (.connFail, true)
          | .ok auth =>
            if !auth then (.respond (.Authenticate auth false), true)
            else (.proceed teamId, true)
        else (.proceed teamId, false)
  | other => (.respond other.toFailure, false)

/-- Variant discriminator for ControlResponse::UpdateModule. -/
def ControlResponse.isUpdateModule : ControlResponse → Bool
  | .UpdateModule _ _ _ _ => true
  | _ => false

/-- Decidable equality of Except results, used to evaluate the embedding
at concrete inputs. -/
instance {e a : Type} [DecidableEq e] [DecidableEq a] :
    DecidableEq (Except e a) := fun x y =>
  match x, y with
  | .error e1, .error e2 =>
    if h : e1 = e2 then .isTrue (congrArg Except.error h)
    else .isFalse (fun hc => h (Except.error.inj hc))
  | .error _, .ok _ => .isFalse (fun hc => Except.noConfusion hc)
  | .ok _, .error _ => .isFalse (fun hc => Except.noConfusion hc)
  | .ok a1, .ok a2 =>
    if h : a1 = a2 then .isTrue (congrArg Except.ok h)
    else .isFalse (fun hc => h (Except.ok.inj hc))

/-- Test-harness helper: OR a mask into byte i of a shard, modelling the
corruptions of the repair_u64 and repair_bytes tests of data.rs. -/
def listOrAt (xs : List Nat) (i : Nat) (mask : Nat) : List Nat :=
  xs.set i (xs.getD i 0 ||| mask)

theorem toLE_length (k v : Nat) : (toLE k v).length = k := by
  induction k generalizing v with
  | zero => rfl
  | succ k ih => simp [toLE, ih]

theorem toBE_length (k v : Nat) : (toBE k v).length = k := by
  simp [toBE, toLE_length]

theorem toLE_lt (k v : Nat) : ∀ b ∈ toLE k v, b < 256 := by
  induction k generalizing v with
  | zero => simp [toLE]
  | succ k ih =>
    intro b hb
    simp only [toLE, List.mem_cons] at hb
    rcases hb with h | h
    · omega
    · exact ih _ _ h

theorem toBE_lt (k v : Nat) : ∀ b ∈ toBE k v, b < 256 := by
  intro b hb
  exact toLE_lt k v b (List.mem_reverse.mp hb)

theorem fromLE_toLE (k v : Nat) : fromLE (toLE k v) = v % 256 ^ k := by
  induction k generalizing v with
  | zero => simp [toLE, fromLE, Nat.mod_one]
  | succ k ih =>
    simp only [toLE, fromLE, ih]
    rw [pow_succ, Nat.mul_comm (256 ^ k) 256, Nat.mod_mul]

theorem fromBE_toBE (k v : Nat) : fromBE (toBE k v) = v % 256 ^ k := by
  simp [fromBE, toBE, fromLE_toLE]

theorem mod_pow_div (M v : Nat) : v % (256 * M) / 256 = v / 256 % M := by
  rw [Nat.mod_mul, Nat.add_mul_div_left _ _ (by norm_num : (0 : Nat) < 256),
    Nat.div_eq_of_lt (Nat.mod_lt _ (by norm_num))]
  omega

theorem toLE_mod (k v : Nat) : toLE k (v % 256 ^ k) = toLE k v := by
  induction k generalizing v with
  | zero => rfl
  | succ k ih =>
    simp only [toLE]
    rw [pow_succ, Nat.mul_comm (256 ^ k) 256]
    congr 1
    · exact Nat.mod_mod_of_dvd v ⟨256 ^ k, rfl⟩
    · rw [mod_pow_div, ih]

theorem toBE_mod (k v : Nat) : toBE k (v % 256 ^ k) = toBE k v := by
  simp [toBE, toLE_mod]

theorem diffuse_lt (x : Nat) : diffuse x < m64 := by
  simp only [diffuse, m64]
  exact Nat.mod_lt _ (by norm_num)

theorem chk_lt (s0 s1 s2 : List Nat) : chk s0 s1 s2 < 2 ^ 64 :=
  diffuse_lt _

theorem U64.enc_verify (v : Nat) : (U64.enc v).verify = true := by
  simp [U64.enc, U64.update, U64.verify]

theorem encS0_append_encS1 (v : Nat) : encS0 v ++ encS1 v = toBE 8 v := by
  simp [encS0, encS1]

theorem U64.enc_val (v : Nat) : (U64.enc v).val = v % 2 ^ 64 := by
  have h : (256 : Nat) ^ 8 = 2 ^ 64 := by norm_num
  simp [U64.enc, U64.update, U64.val, encS0_append_encS1, fromBE_toBE, h]

theorem U64.enc_get (v : Nat) : (U64.enc v).get = (.ok (v % 2 ^ 64), U64.enc v) := by
  rw [U64.get, U64.enc_verify, U64.enc_val]
  simp

theorem U64.enc_mod (v : Nat) : U64.enc (v % 2 ^ 64) = U64.enc v := by
  have key : toBE 8 (v % 2 ^ 64) = toBE 8 v := by
    rw [show (2 : Nat) ^ 64 = 256 ^ 8 by norm_num]
    exact toBE_mod 8 v
  simp only [U64.enc, U64.update, encS0, encS1, key]

theorem U64.update_eq_enc (d : U64) (v : Nat) : d.update v = U64.enc v := rfl

theorem BytesV.encB_verify (n : Nat) (xs : List Nat) :
    (BytesV.enc n xs).verify = true := by
  simp [BytesV.enc, BytesV.verify]

theorem BytesV.encB_get (n : Nat) (xs : List Nat) :
    (BytesV.enc n xs).get = (.ok xs, BytesV.enc n xs) := by
  rw [BytesV.get, BytesV.encB_verify]
  simp [BytesV.enc, List.take_append_drop]

theorem strBytes_lt (s : String) : ∀ b ∈ strBytes s, b < 256 := by
  intro b hb
  simp only [strBytes, List.mem_map] at hb
  obtain ⟨u, _, rfl⟩ := hb
  exact u.toNat_lt

/-! ### Round trips of the parsers over the serializers. -/

theorem pTake_append (xs r : List Nat) :
    pTake xs.length (xs ++ r) = some (xs, r) := by
  simp [pTake]

theorem pTake_append_of_length {n : Nat} (xs r : List Nat) (h : xs.length = n) :
    pTake n (xs ++ r) = some (xs, r) := by
  subst h
  exact pTake_append xs r

theorem pW64_toLE (v : Nat) (r : List Nat) (h : v < 2 ^ 64) :
    pW64 (toLE 8 v ++ r) = some (v, r) := by
  have e : (256 : Nat) ^ 8 = 2 ^ 64 := by norm_num
  have h2 : v < 18446744073709551616 := by omega
  rw [pW64, pTake_append_of_length _ _ (toLE_length 8 v)]
  simp [fromLE_toLE, e, Nat.mod_eq_of_lt h2]

theorem pU64_ser (d : U64) (r : List Nat) (h : WfU64 d) :
    pU64 (serU64 d ++ r) = some (d, r) := by
  obtain ⟨h0, h1, h2, hk⟩ := h
  simp only [serU64, List.append_assoc]
  simp [pU64, pTake_append_of_length _ _ h0, pTake_append_of_length _ _ h1,
    pTake_append_of_length _ _ h2, pW64_toLE _ _ hk]

theorem pBytesV_ser (n : Nat) (d : BytesV) (r : List Nat) (h : WfBytesV n d)
    (hn : n < 2 ^ 61) : pBytesV n (serBytesV n d ++ r) = some (d, r) := by
  obtain ⟨h0, h1, h2, hk⟩ := h
  have hb1 : (n : Nat) < 2 ^ 64 := by omega
  have hb2 : 3 * n < 2 ^ 64 := by omega
  have hdata : (d.s0 ++ (d.s1 ++ d.s2)).length = 3 * n := by
    simp [h0, h1, h2]
    ring
  have e0 : (d.s0 ++ (d.s1 ++ d.s2)).take n = d.s0 := by
    rw [← h0]
    exact List.take_left _ _
  have edrop : (d.s0 ++ (d.s1 ++ d.s2)).drop n = d.s1 ++ d.s2 := by
    rw [← h0]
    exact List.drop_left _ _
  have e1 : ((d.s0 ++ (d.s1 ++ d.s2)).drop n).take n = d.s1 := by
    rw [edrop, ← h1]
    exact List.take_left _ _
  have e2 : (d.s0 ++ (d.s1 ++ d.s2)).drop (2 * n) = d.s2 := by
    rw [show 2 * n = n + n by ring, ← List.drop_drop, edrop, ← h1]
    exact List.drop_left _ _
  simp only [serBytesV, h0, h1, h2, List.append_assoc,
    show n + n + n = 3 * n by ring]
  rw [show d.s0 ++ (d.s1 ++ (d.s2 ++ (toLE 8 d.checksum ++ r))) =
      (d.s0 ++ (d.s1 ++ d.s2)) ++ (toLE 8 d.checksum ++ r) by
    simp only [List.append_assoc]]
  simp [pBytesV, pW64_toLE _ _ hb1, pW64_toLE _ _ hb2,
    pTake_append_of_length _ _ hdata, pW64_toLE _ _ hk, e0, e1, e2,
    -List.append_assoc]

theorem pEvent_ser (e : Event) (r : List Nat) (h : WfEvent e) :
    pEvent (serEvent e ++ r) = some (e, r) := by
  obtain ⟨h1, h2⟩ := h
  simp only [serEvent, List.append_assoc]
  simp [pEvent, pU64_ser _ _ h1, pBytesV_ser _ _ _ h2 (by norm_num),
    -List.append_assoc]

theorem pModule_ser (m : RModule) (r : List Nat) (h : WfModule m) :
    pModule (serModule m ++ r) = some (m, r) := by
  obtain ⟨hu, hen, hec, hv, hsig, hcode⟩ := h
  simp only [serModule, List.append_assoc]
  simp [pModule, pU64_ser _ _ hu, pU64_ser _ _ hen, pU64_ser _ _ hec,
    pW64_toLE _ _ hv, pTake_append_of_length _ _ hsig,
    pTake_append_of_length _ _ hcode, -List.append_assoc]

theorem pList_ser {α : Type} (p : List Nat → Option (α × List Nat))
    (ser : α → List Nat) (xs : List α)
    (hp : ∀ x ∈ xs, ∀ r, p (ser x ++ r) = some (x, r)) :
    ∀ r, pList p xs.length ((xs.map ser).flatten ++ r) = some (xs, r) := by
  induction xs with
  | nil =>
    intro r
    simp [pList]
  | cons x xs ih =>
    intro r
    have hx := hp x (by simp)
    have hrest := ih (fun y hy => hp y (by simp [hy]))
    simp only [List.map_cons, List.flatten_cons, List.length_cons,
      List.append_assoc]
    simp [pList, hx, hrest, -List.append_assoc]

theorem pState_ser (s : State) (r : List Nat) (h : WfState s) :
    pState (serState s ++ r) = some (s, r) := by
  obtain ⟨h1, h2, h3, hel, hev, hml, hmo⟩ := h
  have he : ∀ rr, pList pEvent 32 ((s.events.map serEvent).flatten ++ rr) =
      some (s.events, rr) := by
    intro rr
    have := pList_ser pEvent serEvent s.events
      (fun e hy r2 => pEvent_ser e r2 (hev e hy)) rr
    rwa [hel] at this
  have hm : ∀ rr, pList pModule 4 ((s.modules.map serModule).flatten ++ rr) =
      some (s.modules, rr) := by
    intro rr
    have := pList_ser pModule serModule s.modules
      (fun m hy r2 => pModule_ser m r2 (hmo m hy)) rr
    rwa [hml] at this
  simp only [serState, List.append_assoc]
  simp [pState, pU64_ser _ _ h1, pU64_ser _ _ h2, pU64_ser _ _ h3,
    he, hm, -List.append_assoc]

theorem CanonU64.verify_eq {d : U64} (h : CanonU64 d) : d.verify = true := by
  obtain ⟨v, _, rfl⟩ := h
  exact U64.enc_verify v

theorem CanonU64.get_eq {d : U64} (h : CanonU64 d) : d.get = (.ok d.val, d) := by
  rw [U64.get, h.verify_eq]
  simp

theorem CanonU64.val_lt {d : U64} (h : CanonU64 d) : d.val < 2 ^ 64 := by
  obtain ⟨v, _, rfl⟩ := h
  rw [U64.enc_val]
  exact Nat.mod_lt _ (by norm_num)

theorem CanonU64.enc_val_self {d : U64} (h : CanonU64 d) : U64.enc d.val = d := by
  obtain ⟨v, hv, rfl⟩ := h
  rw [U64.enc_val, U64.enc_mod]

theorem CanonU64.enc (v : Nat) : CanonU64 (U64.enc v) :=
  ⟨v % 2 ^ 64, Nat.mod_lt _ (by norm_num), (U64.enc_mod v).symm⟩

theorem CanonBytesV.verifyB_eq {n : Nat} {d : BytesV} (h : CanonBytesV n d) :
    d.verify = true := by
  obtain ⟨xs, _, rfl⟩ := h
  exact BytesV.encB_verify n xs

theorem CanonBytesV.getB_eq {n : Nat} {d : BytesV} (h : CanonBytesV n d) :
    d.get = (.ok (d.s0 ++ d.s1), d) := by
  rw [BytesV.get, h.verifyB_eq]
  simp

theorem CanonU64.wfU {d : U64} (h : CanonU64 d) : WfU64 d := by
  obtain ⟨v, _, rfl⟩ := h
  refine ⟨?_, ?_, ?_, chk_lt _ _ _⟩
  · simp [U64.enc, U64.update, encS0, toBE_length]
  · simp [U64.enc, U64.update, encS1, toBE_length]
  · simp [U64.enc, U64.update, rsParity, encS0, encS1, toBE_length]

theorem CanonBytesV.wfB {n : Nat} {d : BytesV} (h : CanonBytesV n d) :
    WfBytesV n d := by
  obtain ⟨xs, hl, rfl⟩ := h
  refine ⟨?_, ?_, ?_, chk_lt _ _ _⟩
  · simp [BytesV.enc]; omega
  · simp [BytesV.enc, hl]; omega
  · simp [BytesV.enc, rsParity, hl]; omega

theorem InvEvent.wfE {e : Event} (h : InvEvent e) : WfEvent e :=
  ⟨h.1.wfU, h.2.wfB⟩

theorem InvModule.wfM {ev : List Nat → List Nat → Bool} {m : RModule}
    (h : InvModule ev m) : WfModule m := by
  obtain ⟨h1, h2, h3, h4, h5, h6⟩ := h
  refine ⟨h1.wfU, h2.wfU, h3.wfU, ?_, h5, h6⟩
  rw [h4]
  split <;> norm_num

theorem InvState.wfS {ev : List Nat → List Nat → Bool} {s : State}
    (h : InvState ev s) : WfState s := by
  obtain ⟨h1, h2, h3, h4, h5, h6, h7⟩ := h
  exact ⟨h1.wfU, h2.wfU, h3.wfU, h4, fun e he => (h5 e he).wfE, h6,
    fun m hm => (h7 m hm).wfM⟩

theorem invModule_init (ev : List Nat → List Nat → Bool)
    (hEv : ev zeroCode zeroSig = false) : InvModule ev RModule.init := by
  refine ⟨CanonU64.enc 0, CanonU64.enc 0, CanonU64.enc 0, ?_, ?_, ?_⟩
  · show (0 : Nat) =
      if ev (List.replicate maxModuleSize 0) (List.replicate signatureSize 0) = true then 1 else 0
    have h0 : ev (List.replicate maxModuleSize 0) (List.replicate signatureSize 0) = false := hEv
    rw [h0]
    simp
  · rw [show RModule.init.signature = List.replicate signatureSize 0 from rfl,
      List.length_replicate]
  · rw [show RModule.init.code = List.replicate maxModuleSize 0 from rfl,
      List.length_replicate]

theorem invEvent_init : InvEvent Event.init :=
  ⟨CanonU64.enc 0, ⟨List.replicate 256 0, by rw [List.length_replicate], rfl⟩⟩

theorem invState_init (ev : List Nat → List Nat → Bool)
    (hEv : ev zeroCode zeroSig = false) : InvState ev State.init := by
  refine ⟨CanonU64.enc 0, CanonU64.enc 0, CanonU64.enc 0, ?_, ?_, ?_, ?_⟩
  · rw [show State.init.events = List.replicate 32 Event.init from rfl,
      List.length_replicate]
  · intro e he
    rw [List.eq_of_mem_replicate (show e ∈ List.replicate 32 Event.init from he)]
    exact invEvent_init
  · rw [show State.init.modules = List.replicate 4 RModule.init from rfl,
      List.length_replicate]
  · intro m hm
    rw [List.eq_of_mem_replicate (show m ∈ List.replicate 4 RModule.init from hm)]
    exact invModule_init ev hEv

/-! ### Invariant preservation by the firmware operations. -/

theorem invEvent_update {e : Event} (h : InvEvent e) (now : Nat) (m : List Nat) :
    InvEvent (e.update now m).2 := by
  obtain ⟨_, hm⟩ := h
  by_cases hlen : m.length ≠ 128 * 2
  · rw [Event.update, BytesV.update, if_pos hlen]
    exact ⟨CanonU64.enc now, hm⟩
  · rw [Event.update, BytesV.update, if_neg hlen]
    exact ⟨CanonU64.enc now, ⟨m, by omega, rfl⟩⟩

theorem invModule_setEnabled {ev : List Nat → List Nat → Bool} {m : RModule}
    (h : InvModule ev m) (b : Bool) : InvModule ev (m.setEnabled b) := by
  obtain ⟨h1, h2, h3, h4, h5, h6⟩ := h
  exact ⟨h1, CanonU64.enc _, h3, h4, h5, h6⟩

theorem invModule_setEncoded {ev : List Nat → List Nat → Bool} {m : RModule}
    (h : InvModule ev m) (b : Bool) : InvModule ev (m.setEncoded b) := by
  obtain ⟨h1, h2, h3, h4, h5, h6⟩ := h
  exact ⟨h1, h2, CanonU64.enc _, h4, h5, h6⟩

theorem invModule_verifyCode {ev : List Nat → List Nat → Bool} {m : RModule}
    (h1 : CanonU64 m.updated) (h2 : CanonU64 m.enabled) (h3 : CanonU64 m.encoded)
    (h5 : m.signature.length = signatureSize) (h6 : m.code.length = maxModuleSize) :
    InvModule ev (m.verifyCode ev).2 := by
  refine ⟨h1, h2, h3, ?_, h5, h6⟩
  rw [RModule.verifyCode]

/-- State::log keeps the invariant, for any message and timestamp. -/
theorem invState_log {ev : List Nat → List Nat → Bool} {s : State}
    (h : InvState ev s) (now : Nat) (msg : List Nat) :
    InvState ev (s.log now msg) := by
  obtain ⟨h1, h2, h3, h4, h5, h6, h7⟩ := h
  rw [State.log, h3.get_eq]
  simp only
  set idx := if s.event_index.val > s.events.length then 0 else s.event_index.val with hidx
  cases heq : s.events[idx]? with
  | none => exact ⟨h1, h2, h3, h4, h5, h6, h7⟩
  | some e =>
    have he : e ∈ s.events := by
      exact List.getElem?_mem heq
    refine ⟨h1, h2, h3, ?_, ?_, h6, h7⟩
    · rw [List.length_set]
      exact h4
    · intro e2 he2
      rcases List.mem_or_eq_of_mem_set he2 with hmem | rfl
      · exact h5 e2 hmem
      · exact invEvent_update (h5 e he) now _

/-- Firmware status collection returns the events unchanged on a
consistent state. -/
theorem collectEvents_inv {es : List Event} (h : ∀ e ∈ es, InvEvent e) :
    collectEvents es =
      (.ok (es.map fun e => ⟨e.timestamp.val, e.message.s0 ++ e.message.s1⟩), es) := by
  induction es with
  | nil => rfl
  | cons e es ih =>
    have he := h e (by simp)
    rw [collectEvents, Event.getPair, he.1.get_eq, he.2.getB_eq,
      ih (fun x hx => h x (by simp [hx]))]
    rfl

/-- Firmware status collection returns the modules unchanged on a
consistent state. -/
theorem collectStatuses_inv {ev : List Nat → List Nat → Bool} {ms : List RModule}
    (h : ∀ m ∈ ms, InvModule ev m) :
    collectStatuses ms =
      (.ok (ms.map fun m =>
        ⟨m.enabled.val != 0, m.isVerified, dataHash m.code⟩), ms) := by
  induction ms with
  | nil => rfl
  | cons m ms ih =>
    have hm := h m (by simp)
    rw [collectStatuses, RModule.isEnabled, hm.2.1.get_eq,
      ih (fun x hx => h x (by simp [hx]))]
    rfl

theorem RModule.canUpdate_canon {m : RModule} (h : CanonU64 m.updated) (now : Nat) :
    m.canUpdate now =
      (.ok (decide (now > m.updated.val) &&
        decide (now - m.updated.val ≥ moduleUpdateThreshold)), m) := by
  unfold RModule.canUpdate
  rw [h.get_eq]

theorem invState_setModule {ev : List Nat → List Nat → Bool} {s : State}
    (h : InvState ev s) {m' : RModule} (hm' : InvModule ev m') (i : Nat) :
    InvState ev { s with modules := s.modules.set i m' } := by
  obtain ⟨h1, h2, h3, h4, h5, h6, h7⟩ := h
  refine ⟨h1, h2, h3, h4, h5, ?_, ?_⟩
  · rw [List.length_set]
    exact h6
  · intro m hm
    rcases List.mem_or_eq_of_mem_set hm with hmem | rfl
    · exact h7 m hmem
    · exact hm'

theorem invState_foldLog {ev : List Nat → List Nat → Bool} {α : Type}
    (now : Nat) (f : α → List Nat) (xs : List α) :
    ∀ {s : State}, InvState ev s →
      InvState ev (xs.foldl (fun st x => st.log now (f x)) s) := by
  induction xs with
  | nil =>
    intro s h
    exact h
  | cons x xs ih =>
    intro s h
    exact ih (invState_log h now (f x))

/-- process_request preserves the state invariant on its non-error arms. -/
theorem processRequest_inv {ev : List Nat → List Nat → Bool} {now : Nat}
    {req : ControlRequest} {s : State}
    {r : Option ControlResponse × State × List ExecutiveRequest}
    (h : InvState ev s)
    (hr : processRequest ev now req s = some (.ok r)) : InvState ev r.2.1 := by
  obtain ⟨h1, h2, h3, h4, h5, h6, h7⟩ := h
  cases req with
  | NoOp => simp [processRequest] at hr
  | Reset => simp [processRequest] at hr
  | Disconnect => simp [processRequest] at hr
  | Authenticate token nonce => simp [processRequest] at hr
  | Firmware =>
    rw [processRequest, collectEvents_inv h5, collectStatuses_inv h7] at hr
    simp only [h1.get_eq, h2.get_eq, Option.some.injEq, Except.ok.injEq] at hr
    rw [← hr]
    exact ⟨h1, h2, h3, h4, h5, h6, h7⟩
  | PositionVelocity =>
    rw [processRequest] at hr
    simp only [Option.some.injEq, Except.ok.injEq] at hr
    rw [← hr]
    exact ⟨h1, h2, h3, h4, h5, h6, h7⟩
  | KeplerianElements =>
    rw [processRequest] at hr
    simp only [Option.some.injEq, Except.ok.injEq] at hr
    rw [← hr]
    exact ⟨h1, h2, h3, h4, h5, h6, h7⟩
  | Sensors =>
    rw [processRequest] at hr
    simp only [Option.some.injEq, Except.ok.injEq] at hr
    rw [← hr]
    exact ⟨h1, h2, h3, h4, h5, h6, h7⟩
  | Maneuver burns =>
    rw [processRequest] at hr
    simp only [Option.some.injEq, Except.ok.injEq] at hr
    rw [← hr]
    exact invState_foldLog now _ burns ⟨h1, h2, h3, h4, h5, h6, h7⟩
  | EnableModule id enable =>
    rw [processRequest] at hr
    cases hm : s.modules[id]? with
    | some m =>
      rw [hm] at hr
      simp only [Option.some.injEq, Except.ok.injEq] at hr
      rw [← hr]
      exact invState_log
        (invState_setModule ⟨h1, h2, h3, h4, h5, h6, h7⟩
          (invModule_setEnabled (h7 m (List.getElem?_mem hm)) enable) id) now _
    | none =>
      rw [hm] at hr
      simp only [Option.some.injEq, Except.ok.injEq] at hr
      rw [← hr]
      exact invState_log ⟨h1, h2, h3, h4, h5, h6, h7⟩ now _
  | UpdateModule id module signature encoded =>
    rw [processRequest] at hr
    cases hm : s.modules[id]? with
    | none =>
      rw [hm] at hr
      simp only [Option.some.injEq, Except.ok.injEq] at hr
      rw [← hr]
      exact invState_log ⟨h1, h2, h3, h4, h5, h6, h7⟩ now _
    | some m =>
      rw [hm] at hr
      dsimp only at hr
      have hminv := h7 m (List.getElem?_mem hm)
      rw [RModule.canUpdate_canon hminv.1 now] at hr
      simp only at hr
      by_cases hcan : (decide (now > m.updated.val) && decide (now - m.updated.val ≥ moduleUpdateThreshold)) = true
      · rw [if_pos hcan] at hr
        rw [RModule.updateCode] at hr
        by_cases hbig : module.length > maxModuleSize
        · rw [if_pos hbig] at hr
          simp at hr
        · rw [if_neg hbig] at hr
          by_cases hsig : module.length ≤ maxModuleSize ∧ signature.length = signatureSize
          · rw [if_neg (by simp [hsig.2])] at hr
            simp only [Option.some.injEq, Except.ok.injEq] at hr
            rw [← hr]
            refine invState_log (invState_setModule ⟨h1, h2, h3, h4, h5, h6, h7⟩ ?_ id) now _
            refine invModule_setEncoded (invModule_setEnabled ?_ true) encoded
            refine invModule_verifyCode (CanonU64.enc now) ?_ hminv.2.2.1 hsig.2 ?_
            · exact (invModule_setEnabled hminv false).2.1
            · simp only [List.length_append, List.length_replicate]
              omega
          · have hsig2 : signature.length ≠ signatureSize := by
              intro hc
              exact hsig ⟨by omega, hc⟩
            rw [if_pos hsig2] at hr
            simp at hr
      · rw [if_neg hcan] at hr
        simp only [Option.some.injEq, Except.ok.injEq] at hr
        rw [← hr]
        exact invState_log
          (invState_setModule ⟨h1, h2, h3, h4, h5, h6, h7⟩ hminv id) now _

theorem invModule_execute {ev : List Nat → List Nat → Bool} {m : RModule}
    (vm : VmFn) (h : InvModule ev m) :
    InvModule ev (RModule.execute vm m).2.1 := by
  rw [RModule.execute]
  by_cases hv : m.isVerified
  · rw [if_pos hv, RModule.isEnabled, h.2.1.get_eq]
    dsimp only
    by_cases hen : (m.enabled.val != 0) = true
    · rw [if_pos hen, RModule.isEncoded, h.2.2.1.get_eq]
      dsimp only
      cases vm m.code (m.encoded.val != 0) (List.replicate 1024 0) with
      | ok r => exact h
      | error e => exact h
    · rw [if_neg hen]
      exact h
  · rw [if_neg hv]
    exact h

theorem runModulesGo_inv {ev : List Nat → List Nat → Bool} (vm : VmFn) :
    ∀ (i : Nat) (ms : List RModule), (∀ m ∈ ms, InvModule ev m) →
      ((runModulesGo vm i ms).1.length = ms.length ∧
        ∀ m ∈ (runModulesGo vm i ms).1, InvModule ev m) := by
  intro i ms
  induction ms generalizing i with
  | nil =>
    intro _
    exact ⟨rfl, by simp [runModulesGo]⟩
  | cons m ms ih =>
    intro h
    have hm := invModule_execute vm (h m (by simp))
    have hrest := ih (i + 1) (fun x hx => h x (by simp [hx]))
    rw [runModulesGo]
    cases hx : (RModule.execute vm m).1 with
    | ok data =>
      dsimp only
      by_cases hd : data.isEmpty
      · rw [if_pos hd]
        refine ⟨by simp [hrest.1], ?_⟩
        intro x hx2
        rcases List.mem_cons.mp hx2 with rfl | hx3
        · exact hm
        · exact hrest.2 x hx3
      · rw [if_neg hd]
        refine ⟨by simp [hrest.1], ?_⟩
        intro x hx2
        rcases List.mem_cons.mp hx2 with rfl | hx3
        · exact hm
        · exact hrest.2 x hx3
    | error e =>
      dsimp only
      refine ⟨by simp [hrest.1], ?_⟩
      intro x hx2
      rcases List.mem_cons.mp hx2 with rfl | hx3
      · exact invModule_setEnabled hm false
      · exact hrest.2 x hx3

theorem invState_mainModulePass {ev : List Nat → List Nat → Bool} {s : State}
    (vm : VmFn) (now : Nat) (h : InvState ev s) :
    InvState ev (mainModulePass vm now s) := by
  obtain ⟨h1, h2, h3, h4, h5, h6, h7⟩ := h
  have hms := runModulesGo_inv vm 0 s.modules h7
  rw [mainModulePass]
  refine invState_foldLog now _ _ (invState_foldLog now _ _ ?_)
  refine ⟨h1, h2, h3, h4, h5, ?_, hms.2⟩
  rw [hms.1]
  exact h6

/-! ### The scrubber is the identity on a consistent state. -/

theorem scrubU64_canon {d : U64} (h : CanonU64 d) : scrubU64 d = .ok (d, 0) := by
  rw [scrubU64, if_pos h.verify_eq]

theorem scrubEvent_inv {e : Event} (h : InvEvent e) : scrubEvent e = .ok (e, 0) := by
  rw [scrubEvent, if_pos]
  rw [Event.verify, h.1.verify_eq, h.2.verifyB_eq]
  rfl

theorem scrubModule_inv {ev : List Nat → List Nat → Bool} {m : RModule}
    (h : InvModule ev m) : scrubModule m = .ok (m, 0) := by
  rw [scrubModule, if_pos]
  rw [RModule.verify, h.1.verify_eq, h.2.1.verify_eq, h.2.2.1.verify_eq]
  rfl

theorem scrubList_id {α : Type} {f : α → Except RadErr (α × Nat)} :
    ∀ {xs : List α}, (∀ x ∈ xs, f x = .ok (x, 0)) →
      scrubList f xs = .ok (xs, 0) := by
  intro xs
  induction xs with
  | nil =>
    intro _
    rfl
  | cons x xs ih =>
    intro h
    rw [scrubList, h x (by simp), ih (fun y hy => h y (by simp [hy]))]
    rfl

theorem u64_increment_canon {d : U64} (h : CanonU64 d) (n : Nat) :
    d.increment n = (.ok (), U64.enc ((d.val + n) % 2 ^ 64)) := by
  rw [U64.increment, h.get_eq]
  rfl

theorem checkState_inv {ev : List Nat → List Nat → Bool} {s : State}
    (h : InvState ev s) : checkState s = .ok s := by
  obtain ⟨h1, h2, h3, h4, h5, h6, h7⟩ := h
  rw [checkState]
  rw [scrubU64_canon h1, scrubU64_canon h2, scrubU64_canon h3,
    scrubList_id (fun e he => scrubEvent_inv (h5 e he)),
    scrubList_id (fun m hm => scrubModule_inv (h7 m hm))]
  dsimp only [bind, Except.bind]
  rw [u64_increment_canon h1]
  dsimp only
  simp only [Nat.add_zero]
  rw [Nat.mod_eq_of_lt h1.val_lt, h1.enc_val_self]

/-! ### Checkpoint write and reload on a consistent state. -/

theorem loadCheckpoint_serState {ev : List Nat → List Nat → Bool} {s : State}
    (h : InvState ev s) :
    loadCheckpoint ev (serState s) =
      .ok { s with
        restarts := U64.enc ((s.restarts.val + 1) % 2 ^ 64),
        modules := s.modules.map (fun m => { m with enabled := U64.enc 0 }) } := by
  have hser := pState_ser s [] h.wfS
  rw [List.append_nil] at hser
  rw [loadCheckpoint, hser]
  dsimp only
  rw [u64_increment_canon h.2.1]
  dsimp only
  congr 1
  refine congrArg _ ?_
  apply List.map_congr_left
  intro m hm
  have hminv := h.2.2.2.2.2.2 m hm
  rw [RModule.verifyCode]
  dsimp only
  rw [← hminv.2.2.2.1]
  rfl

theorem Reachable.inv {ev : List Nat → List Nat → Bool} {s : State}
    (hEv : ev zeroCode zeroSig = false) (h : Reachable ev s) :
    InvState ev s := by
  induction h with
  | init => exact invState_init ev hEv
  | load _ hl ih =>
    rw [loadCheckpoint_serState ih] at hl
    cases hl
    refine ⟨ih.1, CanonU64.enc _, ih.2.2.1, ih.2.2.2.1, ih.2.2.2.2.1, ?_, ?_⟩
    · rw [List.length_map]
      exact ih.2.2.2.2.2.1
    · intro m hm
      obtain ⟨m0, hm0, rfl⟩ := List.mem_map.mp hm
      have h0 := ih.2.2.2.2.2.2 m0 hm0
      exact ⟨h0.1, CanonU64.enc 0, h0.2.2.1, h0.2.2.2.1, h0.2.2.2.2⟩
  | ctrl _ hp ih => exact processRequest_inv ih hp
  | log _ ih => exact invState_log ih _ _
  | modulePass vm now _ ih => exact invState_mainModulePass vm now ih
  | scrub _ hc ih =>
    rw [checkState_inv ih] at hc
    cases hc
    exact ih

theorem U64.get_of_verify {d : U64} (h : d.verify = true) :
    d.get = (.ok d.val, d) := by
  rw [U64.get, h]
  simp

/-! ### Claims. -/

/-- C2: for every protected datum (U64 or Bytes) and every value of the
right size, immediately after update(v) succeeds, verify() returns true
and get() returns v. -/
theorem c2_update_then_verify_get :
    (∀ (d : U64) (v : Nat), v < 2 ^ 64 →
      (d.update v).verify = true ∧ ((d.update v).get).1 = .ok v) ∧
    (∀ (n : Nat) (d : BytesV) (xs : List Nat),
      (BytesV.update n d xs).1 = .ok () →
      ((BytesV.update n d xs).2.verify = true ∧
        (((BytesV.update n d xs).2).get).1 = .ok xs)) := by
  constructor
  · intro d v hv
    rw [U64.update_eq_enc]
    refine ⟨U64.enc_verify v, ?_⟩
    rw [U64.enc_get]
    dsimp only
    rw [Nat.mod_eq_of_lt hv]
  · intro n d xs hok
    rw [BytesV.update] at hok ⊢
    by_cases hlen : xs.length ≠ n * 2
    · rw [if_pos hlen] at hok
      simp at hok
    · rw [if_neg hlen]
      exact ⟨BytesV.encB_verify n xs, by rw [BytesV.encB_get]⟩

/-- C2 witness: concrete instances of both halves. -/
theorem c2_witness :
    (3 < 2 ^ 64 ∧ ((U64.enc 0).update 3).verify = true ∧
      (((U64.enc 0).update 3).get).1 = .ok 3) ∧
    ((BytesV.update 1 (BytesV.enc 1 [0, 0]) [7, 9]).1 = .ok () ∧
      (BytesV.update 1 (BytesV.enc 1 [0, 0]) [7, 9]).2.verify = true ∧
      (((BytesV.update 1 (BytesV.enc 1 [0, 0]) [7, 9]).2).get).1 = .ok [7, 9]) := by
  have h1 := c2_update_then_verify_get.1 (U64.enc 0) 3 (by norm_num)
  have hok : (BytesV.update 1 (BytesV.enc 1 [0, 0]) [7, 9]).1 = .ok () := by rfl
  have h2 := c2_update_then_verify_get.2 1 (BytesV.enc 1 [0, 0]) [7, 9] hok
  exact ⟨⟨by norm_num, h1.1, h1.2⟩, ⟨hok, h2.1, h2.2⟩⟩

/-- C4: a module whose plain verified field is 0, or whose protected
enabled flag reads as 0, executes to an empty output vector without
running any VM program (so no syscall is invoked). -/
theorem c4_execute_guard (vm : VmFn) (m : RModule)
    (h : m.verified = 0 ∨ (m.enabled.get).1 = .ok 0) :
    (RModule.execute vm m).1 = .ok [] ∧ (RModule.execute vm m).2.2 = false := by
  rw [RModule.execute]
  by_cases hv : m.isVerified
  · rcases h with h0 | h0
    · rw [RModule.isVerified, h0] at hv
      simp at hv
    · rw [if_pos hv, RModule.isEnabled]
      cases he : m.enabled.get with
      | mk fst snd =>
        rw [he] at h0
        dsimp only at h0
        subst h0
        dsimp only
        exact ⟨rfl, rfl⟩
  · rw [if_neg hv]
    exact ⟨rfl, rfl⟩

/-- C4 witness: a fresh module has verified equal to 0 and does not run
the VM. -/
theorem c4_witness :
    (RModule.execute (fun _ _ _ => .ok (0, [])) RModule.init).1 = .ok [] ∧
    (RModule.execute (fun _ _ _ => .ok (0, [])) RModule.init).2.2 = false :=
  c4_execute_guard _ RModule.init (Or.inl rfl)

/-- C5 counterexample: the registry built by execute of vm.rs holds a
single syscall, and send_message is not among the registered syscalls, so
the claim that exactly two syscalls (file_read and send_message) are
registered fails on the code. -/
theorem c5_counterexample :
    vmSyscallRegistry.length = 1 ∧
    SyscallId.sendMessage ∉ vmSyscallRegistry.map Prod.snd := by
  constructor
  · rfl
  · decide

/-- C5 (amended): the VM registers exactly one syscall by integer hash,
file_read at hash 23; SendMessage is implemented but never registered, and
its implementation enforces len < 64, copying at most 63 bytes into the
host-side buffer and copying nothing when len is 64 or more. -/
theorem c5_amended_registry :
    vmSyscallRegistry = [(23, SyscallId.fileRead)] ∧
    (∀ mem buf a l, 64 ≤ l → sendMessageCall mem buf a l = (.ok 0, buf)) ∧
    (∀ mem buf a l, ((sendMessageCall mem buf a l).2).length ≤ buf.length + 63) := by
  refine ⟨rfl, ?_, ?_⟩
  · intro mem buf a l hl
    rw [sendMessageCall, if_neg (by omega)]
  · intro mem buf a l
    rw [sendMessageCall]
    split
    · rename_i hlt
      split
      · simp only [List.length_append, List.length_take, List.length_drop]
        omega
      · dsimp only
        omega
    · dsimp only
      omega

/-- C5 witness: a length of 64 is rejected and copies nothing. -/
theorem c5_witness :
    (64 ≤ 64 ∧ sendMessageCall [] [] 0 64 = (.ok 0, [])) ∧
    ((sendMessageCall [] [] 0 64).2).length ≤ ([] : List Nat).length + 63 :=
  ⟨⟨by norm_num, c5_amended_registry.2.1 [] [] 0 64 (by norm_num)⟩,
    c5_amended_registry.2.2 [] [] 0 64⟩

/-- C6: process_request of control.rs answers NoOp, Reset and Disconnect
with the ProtocolViolation error that drops the connection, but its match
has no arm at all for Authenticate (the match is not exhaustive over
ControlRequest), modelled as none. -/
theorem c6_invalid_variants (ev : List Nat → List Nat → Bool) (now : Nat)
    (s : State) (token nonce : List Nat) :
    processRequest ev now .NoOp s =
      some (.error (.protocol "invalid control protocol message")) ∧
    processRequest ev now .Reset s =
      some (.error (.protocol "invalid control protocol message")) ∧
    processRequest ev now .Disconnect s =
      some (.error (.protocol "invalid control protocol message")) ∧
    processRequest ev now (.Authenticate token nonce) s = none :=
  ⟨rfl, rfl, rfl, rfl⟩

/-- C7 counterexample: to_failure of an UpdateModule request is an
EnableModule response with success false, not an UpdateModule response. -/
theorem c7_counterexample :
    (ControlRequest.UpdateModule 3 [1] [2] true).toFailure =
      .EnableModule false ∧
    ((ControlRequest.UpdateModule 3 [1] [2] true).toFailure).isUpdateModule
      = false :=
  ⟨rfl, rfl⟩

/-- C7 (amended): to_failure maps every request to a failure response with
success false and zeroed payloads, mirroring the request variant in every
case except UpdateModule, which is mapped to an EnableModule response with
success false. -/
theorem c7_to_failure_table :
    ControlRequest.NoOp.toFailure = .NoOp ∧
    (∀ t n, (ControlRequest.Authenticate t n).toFailure =
      .Authenticate false false) ∧
    ControlRequest.Reset.toFailure = .Reset false ∧
    ControlRequest.Firmware.toFailure = .Firmware false 0 0 [] [] ∧
    ControlRequest.PositionVelocity.toFailure =
      .PositionVelocity false 0 (0, 0, 0) (0, 0, 0) ∧
    ControlRequest.KeplerianElements.toFailure =
      .KeplerianElements false 0 0 0 0 0 0 0 ∧
    ControlRequest.Sensors.toFailure = .Sensors false 0 0 ∧
    (∀ i e, (ControlRequest.EnableModule i e).toFailure =
      .EnableModule false) ∧
    (∀ i md sg en, (ControlRequest.UpdateModule i md sg en).toFailure =
      .EnableModule false) ∧
    (∀ bs, (ControlRequest.Maneuver bs).toFailure = .Maneuver false) ∧
    ControlRequest.Disconnect.toFailure = .Disconnect :=
  ⟨rfl, fun _ _ => rfl, rfl, rfl, rfl, rfl, rfl, fun _ _ => rfl,
    fun _ _ _ _ => rfl, fun _ => rfl, rfl⟩

/-- C10: in node mode, after a successful decrypt and JWT decode, the
external HTTP check is consulted exactly when the decrypted token differs
from TEST_TOKEN; a token equal to TEST_TOKEN proceeds as authenticated
with no external check. -/
theorem c10_test_token_skips_external
    (decryptTok : List Nat → List Nat → Except String String)
    (decodeTok : String → Except String Nat)
    (authTeam : String → Except String Bool)
    (token nonce : List Nat) (tok : String) (teamId : Nat)
    (hdec : decryptTok token nonce = .ok tok)
    (hdecode : decodeTok tok = .ok teamId) :
    ((processClientAuth decryptTok decodeTok authTeam
        (.Authenticate token nonce)).2 = decide (tok ≠ TEST_TOKEN)) ∧
    (tok = TEST_TOKEN →
      processClientAuth decryptTok decodeTok authTeam
        (.Authenticate token nonce) = (.proceed teamId, false)) := by
  unfold processClientAuth
  dsimp only
  rw [hdec]
  dsimp only
  rw [hdecode]
  dsimp only
  by_cases ht : tok = TEST_TOKEN
  · rw [if_neg (by simp [ht])]
    subst ht
    simp
  · rw [if_pos ht]
    refine ⟨?_, fun hc => absurd hc ht⟩
    cases authTeam tok with
    | error e => simp [ht]
    | ok auth =>
      dsimp only
      split
      · simp [ht]
      · simp [ht]

/-- C10 witness: a decrypt returning exactly TEST_TOKEN proceeds without
consulting the external check. -/
theorem c10_witness :
    ((fun (_ : List Nat) (_ : List Nat) => (.ok TEST_TOKEN : Except String String)) [] [] = .ok TEST_TOKEN) ∧
    ((fun (_ : String) => (.ok 31337 : Except String Nat)) TEST_TOKEN = .ok 31337) ∧
    ((processClientAuth (fun _ _ => .ok TEST_TOKEN) (fun _ => .ok 31337)
        (fun _ => .ok false) (.Authenticate [] [])).2 =
      decide (TEST_TOKEN ≠ TEST_TOKEN)) ∧
    processClientAuth (fun _ _ => .ok TEST_TOKEN) (fun _ => .ok 31337)
        (fun _ => .ok false) (.Authenticate [] []) = (.proceed 31337, false) := by
  have h := c10_test_token_skips_external (fun _ _ => .ok TEST_TOKEN)
    (fun _ => .ok 31337) (fun _ => .ok false) [] [] TEST_TOKEN 31337 rfl rfl
  exact ⟨rfl, rfl, h.1, h.2 rfl⟩

/-- C8: serializing any reachable state and reloading it through
load_checkpoint yields a state equal to the original on every field,
except that restarts is incremented by exactly one (as the wrapping u64
increment of the source) and every module enabled flag becomes false.
The hypothesis on ev states that the compiled-in Ed25519 key rejects the
all-zero code and signature of a blank module. -/
theorem c8_checkpoint_roundtrip (ev : List Nat → List Nat → Bool)
    (hEv : ev zeroCode zeroSig = false) (s : State) (h : Reachable ev s) :
    ∃ s', loadCheckpoint ev (serState s) = .ok s' ∧
      s'.repairs = s.repairs ∧
      s'.event_index = s.event_index ∧
      s'.events = s.events ∧
      s'.restarts.val = (s.restarts.val + 1) % 2 ^ 64 ∧
      s'.modules = s.modules.map (fun m => { m with enabled := U64.enc 0 }) ∧
      ∀ m' ∈ s'.modules, m'.enabled.val = 0 := by
  have hinv := h.inv hEv
  refine ⟨_, loadCheckpoint_serState hinv, rfl, rfl, rfl, ?_, rfl, ?_⟩
  · rw [U64.enc_val, Nat.mod_mod_of_dvd _ dvd_rfl]
  · intro m' hm'
    obtain ⟨m0, _, rfl⟩ := List.mem_map.mp hm'
    show (U64.enc 0).val = 0
    rw [U64.enc_val]
    rfl

/-- C8 witness: the blank boot state is reachable and reloads as
described, under the verifier that rejects everything. -/
theorem c8_witness :
    ((fun (_ _ : List Nat) => false) zeroCode zeroSig = false) ∧
    Reachable (fun _ _ => false) State.init ∧
    ∃ s', loadCheckpoint (fun _ _ => false) (serState State.init) = .ok s' ∧
      s'.repairs = State.init.repairs ∧
      s'.event_index = State.init.event_index ∧
      s'.events = State.init.events ∧
      s'.restarts.val = (State.init.restarts.val + 1) % 2 ^ 64 ∧
      s'.modules = State.init.modules.map
        (fun m => { m with enabled := U64.enc 0 }) ∧
      ∀ m' ∈ s'.modules, m'.enabled.val = 0 :=
  ⟨rfl, .init,
    c8_checkpoint_roundtrip (fun _ _ => false) rfl State.init .init⟩

/-- C9 (amended): State::log leaves repairs, restarts and modules
untouched; when event_index verifies it is left unchanged (so successive
calls overwrite the same slot), the slot index is its value clamped to 0
when strictly above the events length, an index equal to the length drops
the entry, and an existing slot receives the timestamp always but the
(truncated) message bytes only when the message has at least
MAX_MESSAGE_SIZE bytes; a shorter message leaves the slot message
unchanged, because Bytes::update rejects its size and the error is
discarded. -/
theorem c9_log_frame (s : State) (now : Nat) (msg : List Nat) :
    (s.log now msg).repairs = s.repairs ∧
    (s.log now msg).restarts = s.restarts ∧
    (s.log now msg).modules = s.modules ∧
    (s.event_index.verify = true →
      (s.log now msg).event_index = s.event_index ∧
      (let i := if s.event_index.val > s.events.length then 0
                else s.event_index.val
       (s.events[i]? = none → (s.log now msg).events = s.events) ∧
       (∀ e, s.events[i]? = some e →
         (s.log now msg).events = s.events.set i
           ⟨U64.enc now,
            if maxMessageSize ≤ msg.length then
              BytesV.enc 128 (msg.take maxMessageSize)
            else e.message⟩))) := by
  have hshape : ∃ ei ev2, s.log now msg = { s with event_index := ei, events := ev2 } := by
    rw [State.log]
    dsimp only
    split
    · exact ⟨_, _, rfl⟩
    · exact ⟨_, _, rfl⟩
  obtain ⟨ei, ev2, heq⟩ := hshape
  refine ⟨by rw [heq], by rw [heq], by rw [heq], ?_⟩
  intro hv
  rw [State.log, U64.get_of_verify hv]
  dsimp only
  refine ⟨?_, ?_, ?_⟩
  · split
    · rfl
    · rfl
  · intro h0
    rw [h0]
  · intro e h0
    rw [h0]
    dsimp only
    congr 1
    rw [Event.update]
    simp only [maxMessageSize]
    by_cases hge : 256 ≤ msg.length
    · rw [if_pos hge]
      by_cases hgt : msg.length > 256
      · rw [if_pos hgt, BytesV.update, if_neg (by rw [List.length_take]; omega)]
        rfl
      · rw [if_neg hgt,
          List.take_of_length_le (show msg.length ≤ msg.length from Nat.le_refl _),
          List.take_of_length_le (show msg.length ≤ 256 by omega),
          BytesV.update, if_neg (show ¬msg.length ≠ 128 * 2 by omega)]
        rfl
    · rw [if_neg hge, if_neg (show ¬msg.length > 256 by omega),
        List.take_of_length_le (show msg.length ≤ msg.length from Nat.le_refl _),
        BytesV.update, if_pos (show msg.length ≠ 128 * 2 by omega)]
      rfl

set_option maxRecDepth 100000 in
/-- C9 counterexample: logging the one-byte message 65 into the fresh
state writes the timestamp into slot 0 but leaves the slot message at its
blank value (it does not contain byte 65), refuting the claim that every
log call writes the (truncated) message into the slot. -/
theorem c9_counterexample :
    (State.init.log 7 [65]).events[0]? =
      some ⟨U64.enc 7, BytesV.enc 128 (List.replicate 256 0)⟩ ∧
    (State.init.events[0]?.map (fun e => e.message)) =
      some (BytesV.enc 128 (List.replicate 256 0)) ∧
    (65 : Nat) ∉ (BytesV.enc 128 (List.replicate 256 0)).s0 ++
      (BytesV.enc 128 (List.replicate 256 0)).s1 := by
  refine ⟨?_, ?_, ?_⟩
  · decide
  · decide
  · decide

/-- C9 witness: the frame theorem instantiated at the fresh state with a
300-byte message. -/
theorem c9_witness :
    (State.init.log 7 (List.replicate 300 65)).repairs = State.init.repairs ∧
    (State.init.log 7 (List.replicate 300 65)).restarts = State.init.restarts ∧
    (State.init.log 7 (List.replicate 300 65)).modules = State.init.modules ∧
    (State.init.event_index.verify = true →
      (State.init.log 7 (List.replicate 300 65)).event_index =
        State.init.event_index ∧
      (let i := if State.init.event_index.val > State.init.events.length then 0
                else State.init.event_index.val
       (State.init.events[i]? = none →
         (State.init.log 7 (List.replicate 300 65)).events = State.init.events) ∧
       (∀ e, State.init.events[i]? = some e →
         (State.init.log 7 (List.replicate 300 65)).events =
           State.init.events.set i
             ⟨U64.enc 7,
              if maxMessageSize ≤ (List.replicate 300 65 : List Nat).length then
                BytesV.enc 128 ((List.replicate 300 65 : List Nat).take maxMessageSize)
              else e.message⟩))) :=
  c9_log_frame State.init 7 (List.replicate 300 65)

set_option maxRecDepth 100000 in
/-- Concrete single-event-upset instances of the repair_u64 test vector of
data.rs: with the value 0x09a7782c013a81ed, an 0x80 bit flip in any byte
of any one shard is detected by verify and repaired by get, which returns
the original value and leaves a verifying datum.  The universal claim over
all values reduces to collision facts about the 64-bit checksum and is
settled only at concrete instances such as these. -/
theorem u64_flip_recovery_test :
    ∀ i < 4,
      (((fun (d : U64) => { d with s0 := listOrAt d.s0 i 0x80 })
          (U64.enc 0x09a7782c013a81ed)).get).1 = .ok 0x09a7782c013a81ed ∧
      (((fun (d : U64) => { d with s1 := listOrAt d.s1 i 0x80 })
          (U64.enc 0x09a7782c013a81ed)).get).1 = .ok 0x09a7782c013a81ed ∧
      (((fun (d : U64) => { d with s2 := listOrAt d.s2 i 0x80 })
          (U64.enc 0x09a7782c013a81ed)).get).1 = .ok 0x09a7782c013a81ed := by
  decide

set_option maxRecDepth 100000 in
/-- A concrete double-shard corruption of the same vector is unrepairable:
get fails with the repair error after trying all three reconstructions. -/
theorem u64_double_corruption_test :
    (((fun (d : U64) => { d with
        s0 := listOrAt d.s0 0 0x80,
        s1 := listOrAt d.s1 0 0x80 })
      (U64.enc 0x09a7782c013a81ed)).get).1 =
      .error (.repair "unable to repair u64") := by
  decide

